import Mathlib

/-!
Verification of the Titan API protocol-engine specification against the
repository code (WebSocket proxy, raw-WebSocket streaming client,
reconnect-with-backoff loop, and the message codec contract).

Each definition is a shallow embedding of a function in the repository:

* `Titan.validateUserToken`, `Titan.handleClientConnection`,
  `Titan.connectToTitan`, the relay forwarders and `Titan.handlePairEvent`
  embed the backend WebSocket proxy.
* `Titan.handleMessage`, `Titan.sendStopStream` embed the raw-WebSocket
  example client (its inbound dispatch chain and SIGINT stop handler).
* `Titan.connectWithRetry` embeds the reconnection pattern from the skill
  document.
* `Titan.encode` and `Titan.decode` model the codec contract (the actual
  codec is an external package, see the doc comment on `Titan.Value`).
-/

namespace Titan

/-! ## Proxy: authentication (backend proxy, validateUserToken) -/

/-- Result record of `validateUserToken` in the proxy:
`{ valid: boolean; userId: string }`. -/
structure AuthResult where
  valid : Bool
  userId : String
deriving Repr, DecidableEq

/-- Embedding of the proxy function `validateUserToken(token)`.
In the source, `token` is `string | null`; the guard `if (!token)` is true
for `null` and for the empty string (both falsy in JavaScript), hence the
explicit empty-string case.  Then tokens shorter than 10 characters are
rejected, and any other token is accepted with mock user id
`user_` followed by `token.substring(0, 8)`. -/
def validateUserToken (token : Option String) : AuthResult :=
  match token with
  | none => { valid := false, userId := "" }
  | some t =>
    if t = "" then { valid := false, userId := "" }
    else if t.length < 10 then { valid := false, userId := "" }
    else { valid := true, userId := "user_" ++ t.take 8 }

/-! ## Proxy: connection handling (handleClientConnection) -/

/-- Observable actions of the proxy connection handler, in program order:
validating the downstream token, closing the downstream socket with a
status code, dialing the upstream (Titan) connection, storing the pairing
in the connections map, and closing the upstream socket. -/
inductive ProxyAction where
  | validateToken
  | closeClient (code : Nat)
  | dialUpstream
  | registerConnection
  | closeTitan
deriving Repr, DecidableEq

/-- Embedding of the control flow of `handleClientConnection(clientWs, req)`:
the handler awaits `validateUserToken` first; on failure it closes the
downstream socket with code 4001 ("Unauthorized") and returns without ever
dialing upstream; otherwise it awaits `connectToTitan()` (the upstream
dial, whose success is abstracted as `titanDialSucceeds`), closing the
downstream socket with code 4002 on dial failure, and otherwise storing
the pairing in the connections map. -/
def handleClientConnection (userToken : Option String) (titanDialSucceeds : Bool) :
    List ProxyAction :=
  let authResult := validateUserToken userToken
  if authResult.valid = false then
    [ProxyAction.validateToken, ProxyAction.closeClient 4001]
  else if titanDialSucceeds then
    [ProxyAction.validateToken, ProxyAction.dialUpstream, ProxyAction.registerConnection]
  else
    [ProxyAction.validateToken, ProxyAction.dialUpstream, ProxyAction.closeClient 4002]

/-! ## Proxy: bidirectional relay -/

/-- WebSocket ready states, as in the `ws` library constants. -/
inductive ReadyState where
  | CONNECTING
  | OPEN
  | CLOSING
  | CLOSED
deriving Repr, DecidableEq

/-- Embedding of the proxy handler `clientWs.on("message", ...)`: the raw
frame is sent to the upstream socket as-is when that socket is `OPEN`,
otherwise it is dropped.  A frame is a list of bytes; the handler never
inspects its contents. -/
def forwardClientToTitan (titanState : ReadyState) (data : List Nat) : List (List Nat) :=
  if titanState = ReadyState.OPEN then [data] else []

/-- Embedding of the proxy handler `titanWs.on("message", ...)`, the
mirror image of `forwardClientToTitan`. -/
def forwardTitanToClient (clientState : ReadyState) (data : List Nat) : List (List Nat) :=
  if clientState = ReadyState.OPEN then [data] else []

/-- Frames sent upstream when the downstream peer delivers `frames` in
order, one handler invocation per frame. -/
def relayClientFrames (titanState : ReadyState) (frames : List (List Nat)) : List (List Nat) :=
  match frames with
  | [] => []
  | f :: rest => forwardClientToTitan titanState f ++ relayClientFrames titanState rest

/-- Frames sent downstream when the upstream side delivers `frames` in
order, one handler invocation per frame. -/
def relayTitanFrames (clientState : ReadyState) (frames : List (List Nat)) : List (List Nat) :=
  match frames with
  | [] => []
  | f :: rest => forwardTitanToClient clientState f ++ relayTitanFrames clientState rest

/-! ## Proxy: close/error handling and the connections map -/

/-- Embedding of the proxy record `ProxyConnection`; the two sockets are
abstracted as identifiers. -/
structure ProxyConnection where
  clientWs : Nat
  titanWs : Nat
  userId : String
  createdAt : Nat
deriving Repr, DecidableEq

/-- The four close/error events installed on an established pairing:
`clientWs.on("close")`, `titanWs.on("close")`, `clientWs.on("error")`,
`titanWs.on("error")`. -/
inductive PairEvent where
  | clientClose
  | titanClose
  | clientError
  | titanError
deriving Repr, DecidableEq

/-- Embedding of the four close/error handlers of
`handleClientConnection`.  Each performs a close of the opposite socket
(`titanWs.close()`, or `clientWs.close(4003/4004, ...)`) and then
`connections.delete(clientId)`; the connections map is modelled as an
association list and deletion as filtering the key out. -/
def handlePairEvent (ev : PairEvent) (clientId : String)
    (connections : List (String × ProxyConnection)) :
    List ProxyAction × List (String × ProxyConnection) :=
  match ev with
  | PairEvent.clientClose =>
    ([ProxyAction.closeTitan], connections.filter (fun p => p.1 != clientId))
  | PairEvent.titanClose =>
    ([ProxyAction.closeClient 4003], connections.filter (fun p => p.1 != clientId))
  | PairEvent.clientError =>
    ([ProxyAction.closeTitan], connections.filter (fun p => p.1 != clientId))
  | PairEvent.titanError =>
    ([ProxyAction.closeClient 4004], connections.filter (fun p => p.1 != clientId))

/-! ## Proxy: connectToTitan promise -/

/-- How the `connectToTitan` promise settles. -/
inductive ConnectOutcome where
  | resolvedSocket
  | rejectedError
  | rejectedTimeout
deriving Repr, DecidableEq

/-- Embedding of `connectToTitan()`: the promise resolves on the socket
`open` event, rejects on the `error` event, and a 10000 ms timer
terminates the socket and rejects if the socket is not `OPEN` by then.
The environment is abstracted as the first socket event, if any:
`some (true, t)` means `open` fires at time `t`, `some (false, t)` means
`error` fires at time `t`, `none` means neither ever fires.  An event at
`t ≥ 10000` loses the race against the timer (at 10000 ms the socket is
still not `OPEN`, so it is terminated and the promise rejects).  The
result is the settlement and the time at which it happens. -/
def connectToTitan (firstSocketEvent : Option (Bool × Nat)) : ConnectOutcome × Nat :=
  match firstSocketEvent with
  | some (isOpenEvent, t) =>
    if t < 10000 then
      if isOpenEvent then (ConnectOutcome.resolvedSocket, t)
      else (ConnectOutcome.rejectedError, t)
    else (ConnectOutcome.rejectedTimeout, 10000)
  | none => (ConnectOutcome.rejectedTimeout, 10000)

/-! ## Raw-WebSocket client: decoded inbound messages

The raw-WebSocket example decodes each frame to a value and probes it for
the keys `Response`, `StreamData`, `StreamEnd`, `Error` in that order,
returning after the first match.  A decoded message is modelled as a
record of the four optional variants, so that messages carrying none of
the keys, one of them, or several of them are all representable. -/

/-- The `stream` field of a `Response`: `{ id, dataType }`. -/
structure StreamInfo where
  id : Nat
  dataType : String
deriving Repr, DecidableEq

/-- The `Response` variant as used by the example: `requestId` and the
optional `stream` field.  (The `data` payload is only logged by the
example and never affects state, so it is omitted.) -/
structure ResponseMsg where
  requestId : Nat
  stream : Option StreamInfo
deriving Repr, DecidableEq

/-- The `StreamData` variant: `{ id, seq, payload }`; the payload is an
opaque byte blob for the dispatch logic. -/
structure StreamDataMsg where
  id : Nat
  seq : Nat
  payload : List Nat
deriving Repr, DecidableEq

/-- The `StreamEnd` variant: `{ id, errorCode?, errorMessage? }`. -/
structure StreamEndMsg where
  id : Nat
  errorCode : Option Nat
  errorMessage : Option String
deriving Repr, DecidableEq

/-- The `Error` variant: `{ requestId, code, message }`. -/
structure ErrorMsg where
  requestId : Nat
  code : Nat
  message : String
deriving Repr, DecidableEq

/-- A decoded inbound value, as probed by the example handler: each of the
four known keys may or may not be present. -/
structure DecodedMsg where
  Response : Option ResponseMsg
  StreamData : Option StreamDataMsg
  StreamEnd : Option StreamEndMsg
  Error : Option ErrorMsg
deriving Repr, DecidableEq

/-- A message carrying only the `Response` key. -/
def responseMsg (r : ResponseMsg) : DecodedMsg := ⟨some r, none, none, none⟩

/-- A message carrying only the `StreamData` key. -/
def streamDataMsg (sid seq : Nat) : DecodedMsg := ⟨none, some ⟨sid, seq, []⟩, none, none⟩

/-- A message carrying only the `StreamEnd` key (clean end, no error). -/
def streamEndMsg (sid : Nat) : DecodedMsg := ⟨none, none, some ⟨sid, none, none⟩, none⟩

/-- A message carrying none of the four known keys. -/
def emptyMsg : DecodedMsg := ⟨none, none, none, none⟩

/-- A message carrying both the `Response` and the `Error` keys. -/
def multiTagMsg : DecodedMsg := ⟨some ⟨1, none⟩, none, none, some ⟨1, 500, "boom"⟩⟩

/-- Mutable state of the raw-WebSocket example: the module-level
`requestId` counter and the `activeStreamId` variable. -/
structure ClientState where
  requestId : Nat
  activeStreamId : Option Nat
deriving Repr, DecidableEq

/-- Which branch of the inbound handler processed a message. -/
inductive HandledBranch where
  | response
  | streamData
  | streamEnd
  | errorResponse
  | unknownType
deriving Repr, DecidableEq

/-- Embedding of the `ws.on("message", ...)` handler of the raw-WebSocket
example.  The decoded value is probed for `Response`, `StreamData`,
`StreamEnd`, `Error` in that order, returning after the first hit:
a `Response` carrying a `stream` field sets `activeStreamId` to that
stream id; `StreamData` is formatted and printed, with no state change
and no inspection of `seq` beyond logging; `StreamEnd` sets
`activeStreamId` to `null` (its `id` field is not compared against
`activeStreamId`); `Error` is logged with no state change; a value with
none of the four keys is logged as an unknown message type with no state
change. -/
def handleMessage (st : ClientState) (m : DecodedMsg) : ClientState × HandledBranch :=
  match m.Response with
  | some r =>
    match r.stream with
    | some s => ({ st with activeStreamId := some s.id }, HandledBranch.response)
    | none => (st, HandledBranch.response)
  | none =>
    match m.StreamData with
    | some _ => (st, HandledBranch.streamData)
    | none =>
      match m.StreamEnd with
      | some _ => ({ st with activeStreamId := none }, HandledBranch.streamEnd)
      | none =>
        match m.Error with
        | some _ => (st, HandledBranch.errorResponse)
        | none => (st, HandledBranch.unknownType)

/-- The handler applied to a sequence of inbound messages, collecting the
branch taken for each. -/
def processMessages (st : ClientState) (ms : List DecodedMsg) :
    ClientState × List HandledBranch :=
  match ms with
  | [] => (st, [])
  | m :: rest =>
    let step := handleMessage st m
    let next := processMessages step.1 rest
    (next.1, step.2 :: next.2)

/-- Embedding of the SIGINT handler of the raw-WebSocket example: if
`activeStreamId` is not `null` and the socket is `OPEN`, it builds a
`StopStream` request via `createStopStreamRequest` (which increments the
`requestId` counter through `nextRequestId`) and sends it.  The returned
pair is the new state together with the request sent, if any, as
`(request id, stream id)`.  The handler never writes `activeStreamId`. -/
def sendStopStream (st : ClientState) (wsState : ReadyState) :
    ClientState × Option (Nat × Nat) :=
  match st.activeStreamId with
  | some sid =>
    if wsState = ReadyState.OPEN then
      ({ st with requestId := st.requestId + 1 }, some (st.requestId + 1, sid))
    else (st, none)
  | none => (st, none)

/-! ## Reconnection pattern (connectWithRetry from the skill document) -/

/-- The backoff delay computed after a failed attempt, with the attempt
counter already incremented: `Math.min(1000 * Math.pow(2, attempt), 30000)`. -/
def backoffDelay (attempt : Nat) : Nat := min (1000 * 2 ^ attempt) 30000

/-- Result of running the retry loop: the delays slept (in order), the
number of `connect` attempts made, and whether a client was obtained. -/
structure RetryOutcome where
  delays : List Nat
  attemptsMade : Nat
  connected : Bool
deriving Repr, DecidableEq

/-- Embedding of the `while (attempt < maxRetries)` loop of
`connectWithRetry`: `attempt` is the current counter value, the third
argument is `maxRetries - attempt` (the remaining loop iterations), and
`connectOk n` tells whether the `V1Client.connect` call made with counter
value `n` succeeds.  On failure the counter is incremented, the delay
`min(1000 * 2^attempt, 30000)` (with the incremented counter) is slept,
and the loop repeats; when the guard fails, `Max retries exceeded` is
thrown, modelled as `connected = false`. -/
def retryLoop (connectOk : Nat → Bool) (attempt : Nat) : Nat → RetryOutcome
  | 0 => ⟨[], 0, false⟩
  | remaining + 1 =>
    if connectOk attempt then ⟨[], 1, true⟩
    else
      let next := retryLoop connectOk (attempt + 1) remaining
      ⟨backoffDelay (attempt + 1) :: next.delays, next.attemptsMade + 1, next.connected⟩

/-- Embedding of `connectWithRetry(maxRetries)`: the loop starts with
`attempt = 0` and `maxRetries` iterations available. -/
def connectWithRetry (maxRetries : Nat) (connectOk : Nat → Bool) : RetryOutcome :=
  retryLoop connectOk 0 maxRetries

/-! ## Codec (modelled from the spec) -/

/-- Modelled from the spec: the message codec.  The repository imports
`encode` and `decode` from the external package `@msgpack/msgpack`
(src/examples/stream-quotes-raw-ws.ts line 21); the codec implementation
itself is not part of this repository.  Following the spec, values are
untyped heterogeneous trees over maps, sequences, integers (with lossless
wide-integer representation covering the unsigned 64-bit range), byte
strings, strings, booleans and null; the byte layout is the concern of
the codec alone, so this model fixes a simple tagged layout with 8-byte
little-endian lengths. -/
inductive Value where
  | nil
  | bool (b : Bool)
  | int (i : Int)
  | str (s : String)
  | bin (bytes : List Nat)
  | arr (items : List Value)
  | map (entries : List (Value × Value))

/-- The `k` little-endian bytes of `n` (faithful for `n < 2^(8*k)`). -/
def toBytesLE : Nat → Nat → List Nat
  | 0, _ => []
  | k + 1, n => n % 256 :: toBytesLE k (n / 256)

/-- Read a little-endian byte list back into a number. -/
def fromBytesLE : List Nat → Nat
  | [] => 0
  | b :: bs => b + 256 * fromBytesLE bs

/-- A character as four little-endian bytes of its code point. -/
def charBytes (c : Char) : List Nat := toBytesLE 4 c.toNat

/-- Encode a list of characters, four bytes each. -/
def encodeChars : List Char → List Nat
  | [] => []
  | c :: cs => charBytes c ++ encodeChars cs

/-- All entries of a byte string are bytes. -/
def validBytes : List Nat → Bool
  | [] => true
  | b :: bs => decide (b < 256) && validBytes bs

mutual

/-- Well-formed values: integers within the range the codec represents
losslessly (signed 64-bit low end up to unsigned 64-bit high end),
byte-string entries that are bytes, and container lengths representable
in the 8-byte length field; containers are well-formed recursively. -/
def validValue : Value → Bool
  | Value.nil => true
  | Value.bool _ => true
  | Value.int i => decide (-(2 ^ 63) ≤ i) && decide (i < 2 ^ 64)
  | Value.str s => decide (s.length < 2 ^ 64)
  | Value.bin bs => decide (bs.length < 2 ^ 64) && validBytes bs
  | Value.arr xs => decide (xs.length < 2 ^ 64) && validList xs
  | Value.map es => decide (es.length < 2 ^ 64) && validEntries es

/-- All items of a sequence are well-formed. -/
def validList : List Value → Bool
  | [] => true
  | v :: vs => validValue v && validList vs

/-- All keys and values of a map are well-formed. -/
def validEntries : List (Value × Value) → Bool
  | [] => true
  | (k, v) :: es => validValue k && validValue v && validEntries es

end

mutual

/-- Deterministic encoding of a value: a tag byte, followed for the
variable-size shapes by an 8-byte little-endian length and the payload. -/
def encodeValue : Value → List Nat
  | Value.nil => [0xc0]
  | Value.bool false => [0xc2]
  | Value.bool true => [0xc3]
  | Value.int i =>
    if 0 ≤ i then 0xcf :: toBytesLE 8 i.toNat
    else 0xd3 :: toBytesLE 8 (-i).toNat
  | Value.str s => 0xdb :: (toBytesLE 8 s.length ++ encodeChars s.data)
  | Value.bin bs => 0xc6 :: (toBytesLE 8 bs.length ++ bs)
  | Value.arr xs => 0xdd :: (toBytesLE 8 xs.length ++ encodeList xs)
  | Value.map es => 0xdf :: (toBytesLE 8 es.length ++ encodeEntries es)

/-- Concatenated encodings of the items of a sequence. -/
def encodeList : List Value → List Nat
  | [] => []
  | v :: vs => encodeValue v ++ encodeList vs

/-- Concatenated encodings of the key-value pairs of a map. -/
def encodeEntries : List (Value × Value) → List Nat
  | [] => []
  | (k, v) :: es => encodeValue k ++ (encodeValue v ++ encodeEntries es)

end

mutual

/-- Nesting depth of a value (containers add one level). -/
def depthValue : Value → Nat
  | Value.arr xs => depthList xs + 1
  | Value.map es => depthEntries es + 1
  | _ => 1

/-- Maximal depth of the items of a sequence. -/
def depthList : List Value → Nat
  | [] => 0
  | v :: vs => max (depthValue v) (depthList vs)

/-- Maximal depth of the keys and values of a map. -/
def depthEntries : List (Value × Value) → Nat
  | [] => 0
  | (k, v) :: es => max (max (depthValue k) (depthValue v)) (depthEntries es)

end

/-- Take `k` bytes from the input, failing if fewer remain. -/
def readBytesP (k : Nat) (input : List Nat) : Option (List Nat × List Nat) :=
  if k ≤ input.length then some (input.take k, input.drop k) else none

/-- Parse one character (four little-endian code-point bytes). -/
def parseChar (input : List Nat) : Option (Char × List Nat) := do
  let (cb, r) ← readBytesP 4 input
  pure (Char.ofNat (fromBytesLE cb), r)

/-- Run an item parser `n` times, collecting the items in order. -/
def parseMany {α : Type} (p : List Nat → Option (α × List Nat)) :
    Nat → List Nat → Option (List α × List Nat)
  | 0, input => some ([], input)
  | n + 1, input => do
    let (v, r) ← p input
    let (vs, r2) ← parseMany p n r
    pure (v :: vs, r2)

/-- Run an item parser twice to read one key-value pair. -/
def parsePair {α : Type} (p : List Nat → Option (α × List Nat)) (input : List Nat) :
    Option ((α × α) × List Nat) := do
  let (k, r) ← p input
  let (v, r2) ← p r
  pure ((k, v), r2)

/-- Fueled parser for one value; the fuel bounds the nesting depth, and
each container level parses its items with one unit of fuel less. -/
def parseValue : Nat → List Nat → Option (Value × List Nat)
  | 0, _ => none
  | _ + 1, [] => none
  | fuel + 1, tag :: rest =>
    if tag = 0xc0 then some (Value.nil, rest)
    else if tag = 0xc2 then some (Value.bool false, rest)
    else if tag = 0xc3 then some (Value.bool true, rest)
    else if tag = 0xcf then do
      let (nb, r) ← readBytesP 8 rest
      pure (Value.int (Int.ofNat (fromBytesLE nb)), r)
    else if tag = 0xd3 then do
      let (nb, r) ← readBytesP 8 rest
      pure (Value.int (-(Int.ofNat (fromBytesLE nb))), r)
    else if tag = 0xdb then do
      let (lb, r) ← readBytesP 8 rest
      let (cs, r2) ← parseMany parseChar (fromBytesLE lb) r
      pure (Value.str ⟨cs⟩, r2)
    else if tag = 0xc6 then do
      let (lb, r) ← readBytesP 8 rest
      let (bs, r2) ← readBytesP (fromBytesLE lb) r
      pure (Value.bin bs, r2)
    else if tag = 0xdd then do
      let (lb, r) ← readBytesP 8 rest
      let (xs, r2) ← parseMany (parseValue fuel) (fromBytesLE lb) r
      pure (Value.arr xs, r2)
    else if tag = 0xdf then do
      let (lb, r) ← readBytesP 8 rest
      let (es, r2) ← parseMany (parsePair (parseValue fuel)) (fromBytesLE lb) r
      pure (Value.map es, r2)
    else none

/-- The codec `encode(value) -> bytes` of the contract. -/
def encode (v : Value) : List Nat := encodeValue v

/-- The codec `decode(bytes) -> value` of the contract: parse one value
and require the input to be consumed exactly; the fuel
`input length + 1` dominates any nesting depth the input can encode. -/
def decode (bs : List Nat) : Option Value :=
  match parseValue (bs.length + 1) bs with
  | some (v, []) => some v
  | _ => none

/-- A concrete value touching every shape of the model, with the unsigned
64-bit boundary values 0 and 2^64 - 1 as integer payloads. -/
def codecWitnessValue : Value :=
  Value.map
    [(Value.str "amount", Value.int (2 ^ 64 - 1)),
      (Value.str "zero", Value.int 0),
      (Value.bin [0, 255],
        Value.arr [Value.bool true, Value.bool false, Value.nil, Value.int (-(2 ^ 63))])]

/-! # Theorems -/

/-- C10: `validateUserToken(token)` returns `{valid: true, userId: "user_"
+ first 8 characters of token}` if and only if the token is non-null and
at least 10 characters long; every other input (null or shorter than 10)
yields `{valid: false, userId: ""}`, so the authorization gate admits
exactly the tokens of length at least 10. -/
theorem validateUserToken_spec (token : Option String) :
    ((validateUserToken token).valid = true ↔ ∃ t, token = some t ∧ 10 ≤ t.length) ∧
    (∀ t, token = some t → 10 ≤ t.length →
      validateUserToken token = { valid := true, userId := "user_" ++ t.take 8 }) ∧
    ((validateUserToken token).valid = false → (validateUserToken token).userId = "") := by
  match token with
  | none => simp [validateUserToken]
  | some t =>
    by_cases h0 : t = ""
    · subst h0
      simp [validateUserToken]
    · by_cases h1 : t.length < 10
      · constructor
        · simp only [validateUserToken, h0, if_false, h1, if_true]
          constructor
          · intro h; simp at h
          · rintro ⟨u, hu, hlen⟩
            cases hu
            omega
        · constructor
          · intro u hu hlen
            cases hu
            omega
          · intro _
            simp [validateUserToken, h0, h1]
      · constructor
        · simp only [validateUserToken, h0, if_false, h1, if_true]
          exact ⟨fun _ => ⟨t, rfl, by omega⟩, fun _ => trivial⟩
        · constructor
          · intro u hu _
            cases hu
            simp [validateUserToken, h0, h1]
          · intro hv
            simp [validateUserToken, h0, h1] at hv

/-- Witness for C10 at a concrete 11-character token. -/
theorem validateUserToken_spec_witness :
    validateUserToken (some "abcdefghijk")
      = { valid := true, userId := "user_" ++ ("abcdefghijk").take 8 } :=
  (validateUserToken_spec (some "abcdefghijk")).2.1 "abcdefghijk" rfl (by decide)

/-- C1: on every downstream connection the authorization check runs
exactly once and before any upstream dial (the validation is the first
action, and a dial can only occur strictly after it); when the check
fails, the downstream socket is closed with the distinct status code 4001
and the upstream dial never happens. -/
theorem auth_gate_before_upstream_dial (userToken : Option String) (dialOk : Bool) :
    ((handleClientConnection userToken dialOk).count ProxyAction.validateToken = 1) ∧
    ((handleClientConnection userToken dialOk)[0]? = some ProxyAction.validateToken) ∧
    (∀ i, (handleClientConnection userToken dialOk)[i]? = some ProxyAction.dialUpstream →
      i = 1) ∧
    ((validateUserToken userToken).valid = false →
      handleClientConnection userToken dialOk
          = [ProxyAction.validateToken, ProxyAction.closeClient 4001] ∧
        ProxyAction.dialUpstream ∉ handleClientConnection userToken dialOk) := by
  by_cases hv : (validateUserToken userToken).valid = false
  · have htr : handleClientConnection userToken dialOk
        = [ProxyAction.validateToken, ProxyAction.closeClient 4001] := by
      simp [handleClientConnection, hv]
    refine ⟨?_, ?_, ?_, fun _ => ⟨htr, ?_⟩⟩ <;> rw [htr]
    · decide
    · decide
    · intro i hi
      match i with
      | 0 => simp at hi
      | 1 => simp at hi
      | n + 2 => simp at hi
    · decide
  · have htr : handleClientConnection userToken dialOk
        = if dialOk then
            [ProxyAction.validateToken, ProxyAction.dialUpstream,
              ProxyAction.registerConnection]
          else
            [ProxyAction.validateToken, ProxyAction.dialUpstream,
              ProxyAction.closeClient 4002] := by
      simp [handleClientConnection, hv]
    cases dialOk
    · rw [if_neg (by simp)] at htr
      refine ⟨?_, ?_, ?_, fun h => absurd h hv⟩ <;> rw [htr]
      · decide
      · decide
      · intro i hi
        match i with
        | 0 => simp at hi
        | 1 => rfl
        | 2 => simp at hi
        | n + 3 => simp at hi
    · rw [if_pos rfl] at htr
      refine ⟨?_, ?_, ?_, fun h => absurd h hv⟩ <;> rw [htr]
      · decide
      · decide
      · intro i hi
        match i with
        | 0 => simp at hi
        | 1 => rfl
        | 2 => simp at hi
        | n + 3 => simp at hi

/-- Witness for C1 at a concrete rejected token (too short): the handler
validates, closes downstream with 4001, and never dials upstream. -/
theorem auth_gate_before_upstream_dial_witness :
    handleClientConnection (some "short") true
        = [ProxyAction.validateToken, ProxyAction.closeClient 4001] ∧
      ProxyAction.dialUpstream ∉ handleClientConnection (some "short") true :=
  (auth_gate_before_upstream_dial (some "short") true).2.2.2 (by decide)

/-- C2: once the pairing is relaying (the opposite socket is `OPEN`),
every frame received from either side is forwarded to the other side
byte-identical and in arrival order, without decoding: the upstream side
receives exactly the downstream frame sequence, and vice versa. -/
theorem relay_forwards_verbatim (frames : List (List Nat)) :
    relayClientFrames ReadyState.OPEN frames = frames ∧
    relayTitanFrames ReadyState.OPEN frames = frames := by
  induction frames with
  | nil => exact ⟨rfl, rfl⟩
  | cons f rest ih =>
    refine ⟨?_, ?_⟩
    · simp [relayClientFrames, forwardClientToTitan, ih.1]
    · simp [relayTitanFrames, forwardTitanToClient, ih.2]

/-- C7: every close or error event on either side of an established
pairing immediately closes the other side (with code 4003 or 4004 when
the downstream socket is the one being closed) and removes the pairing
entry from the connections map. -/
theorem pair_closed_and_released (ev : PairEvent) (clientId : String)
    (conns : List (String × ProxyConnection)) :
    ((ev = PairEvent.clientClose ∨ ev = PairEvent.clientError) →
      (handlePairEvent ev clientId conns).1 = [ProxyAction.closeTitan]) ∧
    (ev = PairEvent.titanClose →
      (handlePairEvent ev clientId conns).1 = [ProxyAction.closeClient 4003]) ∧
    (ev = PairEvent.titanError →
      (handlePairEvent ev clientId conns).1 = [ProxyAction.closeClient 4004]) ∧
    (∀ p ∈ (handlePairEvent ev clientId conns).2, p.1 ≠ clientId) := by
  cases ev <;>
    refine ⟨?_, ?_, ?_, ?_⟩ <;>
      first
      | (intro h
         first
         | rfl
         | (rcases h with h | h <;> first | rfl | exact absurd h (by decide))
         | exact absurd h (by decide))
      | (intro p hp
         have := List.of_mem_filter hp
         simpa using this)

/-- Witness for C7: a titan-side close on a concrete one-entry
connections map closes the downstream socket with 4003. -/
theorem pair_closed_and_released_witness :
    (handlePairEvent PairEvent.titanClose "c1" [("c1", ⟨1, 2, "user_a", 0⟩)]).1
      = [ProxyAction.closeClient 4003] :=
  (pair_closed_and_released PairEvent.titanClose "c1" [("c1", ⟨1, 2, "user_a", 0⟩)]).2.1 rfl

/-- C9: every `connectToTitan` call settles: it resolves exactly when the
socket `open` event fires within the 10000 ms window, rejects exactly
when the `error` event fires first within that window, and in every other
case (no event, or an event only at or after 10000 ms) the timer
terminates the socket and rejects at 10000 ms; in all cases settlement is
within 10000 ms. -/
theorem connectToTitan_settles (ev : Option (Bool × Nat)) :
    ((connectToTitan ev).2 ≤ 10000) ∧
    ((connectToTitan ev).1 = ConnectOutcome.resolvedSocket ↔
      ∃ t, t < 10000 ∧ ev = some (true, t)) ∧
    ((connectToTitan ev).1 = ConnectOutcome.rejectedError ↔
      ∃ t, t < 10000 ∧ ev = some (false, t)) ∧
    ((∀ b t, ev = some (b, t) → 10000 ≤ t) →
      connectToTitan ev = (ConnectOutcome.rejectedTimeout, 10000)) := by
  match ev with
  | none =>
    refine ⟨by simp [connectToTitan], ?_, ?_, fun _ => rfl⟩ <;>
      simp [connectToTitan]
  | some (b, t) =>
    by_cases ht : t < 10000
    · cases b
      · have hc : connectToTitan (some (false, t)) = (ConnectOutcome.rejectedError, t) := by
          simp [connectToTitan, ht]
        refine ⟨?_, ?_, ?_, ?_⟩
        · rw [hc]; omega
        · rw [hc]
          constructor
          · intro h; simp at h
          · rintro ⟨u, _, hu⟩
            simp at hu
        · rw [hc]
          constructor
          · intro _; exact ⟨t, ht, rfl⟩
          · intro _; rfl
        · intro h
          exact absurd (h false t rfl) (by omega)
      · have hc : connectToTitan (some (true, t)) = (ConnectOutcome.resolvedSocket, t) := by
          simp [connectToTitan, ht]
        refine ⟨?_, ?_, ?_, ?_⟩
        · rw [hc]; omega
        · rw [hc]
          constructor
          · intro _; exact ⟨t, ht, rfl⟩
          · intro _; rfl
        · rw [hc]
          constructor
          · intro h; simp at h
          · rintro ⟨u, _, hu⟩
            simp at hu
        · intro h
          exact absurd (h true t rfl) (by omega)
    · have hc : connectToTitan (some (b, t)) = (ConnectOutcome.rejectedTimeout, 10000) := by
        simp [connectToTitan, ht]
      refine ⟨by rw [hc], ?_, ?_, fun _ => hc⟩
      · rw [hc]
        constructor
        · intro h; simp at h
        · rintro ⟨u, hu, he⟩
          simp only [Option.some.injEq, Prod.mk.injEq] at he
          omega
      · rw [hc]
        constructor
        · intro h; simp at h
        · rintro ⟨u, hu, he⟩
          simp only [Option.some.injEq, Prod.mk.injEq] at he
          omega

/-- Witness for C9: with no socket event at all, the promise rejects with
the timeout at 10000 ms. -/
theorem connectToTitan_settles_witness :
    connectToTitan none = (ConnectOutcome.rejectedTimeout, 10000) :=
  (connectToTitan_settles none).2.2.2 (fun _ _ h => nomatch h)

/-- C5 counterexample: a decoded message carrying both the `Response` and
the `Error` tags is not surfaced as a protocol error — the handler takes
the `Response` branch (the first matching probe) and returns, exactly as
for a well-formed `Response`; no error is raised and the second tag is
ignored. -/
theorem multi_tag_not_protocol_error :
    (handleMessage ⟨0, none⟩ multiTagMsg).2 = HandledBranch.response ∧
    HandledBranch.response ≠ HandledBranch.unknownType := by
  constructor
  · rfl
  · decide

/-- C5 (amended): the inbound handler probes the four tags in the fixed
order `Response`, `StreamData`, `StreamEnd`, `Error` and dispatches to
the handler of the first tag present, returning immediately (so exactly
one handler runs per message); a message carrying none of the four tags
is reported as an unknown message type and leaves the client bookkeeping
unchanged while the connection continues operating; a message carrying
more than one tag is handled solely by the first matching handler rather
than surfaced as a protocol error. -/
theorem dispatch_first_match (st : ClientState) (m : DecodedMsg) :
    (m.Response = none → m.StreamData = none → m.StreamEnd = none → m.Error = none →
      handleMessage st m = (st, HandledBranch.unknownType)) ∧
    (∀ r, m.Response = some r → (handleMessage st m).2 = HandledBranch.response) ∧
    (m.Response = none → ∀ d, m.StreamData = some d →
      handleMessage st m = (st, HandledBranch.streamData)) ∧
    (m.Response = none → m.StreamData = none → ∀ e, m.StreamEnd = some e →
      handleMessage st m = ({ st with activeStreamId := none }, HandledBranch.streamEnd)) ∧
    (m.Response = none → m.StreamData = none → m.StreamEnd = none → ∀ e, m.Error = some e →
      handleMessage st m = (st, HandledBranch.errorResponse)) := by
  refine ⟨?_, ?_, ?_, ?_, ?_⟩
  · intro h1 h2 h3 h4
    simp [handleMessage, h1, h2, h3, h4]
  · intro r hr
    cases hs : r.stream <;> simp [handleMessage, hr, hs]
  · intro h1 d hd
    simp [handleMessage, h1, hd]
  · intro h1 h2 e he
    simp [handleMessage, h1, h2, he]
  · intro h1 h2 h3 e he
    simp [handleMessage, h1, h2, h3, he]

/-- Witness for C5 at a concrete no-tag message: it is reported as an
unknown message type with the state untouched. -/
theorem dispatch_first_match_witness :
    handleMessage ⟨0, none⟩ emptyMsg = (⟨0, none⟩, HandledBranch.unknownType) :=
  (dispatch_first_match ⟨0, none⟩ emptyMsg).1 rfl rfl rfl rfl

/-- C3 counterexample: delivering `StreamData` with seq 0, 1, 2 and then 4
(skipping 3) does not fail the stream — every message is processed by the
normal `StreamData` branch and the client state (including the active
stream) is exactly what it was, so the gap is silently accepted rather
than surfaced as a contiguity protocol error. -/
theorem seq_gap_not_failed :
    processMessages ⟨1, some 1⟩
        [streamDataMsg 1 0, streamDataMsg 1 1, streamDataMsg 1 2, streamDataMsg 1 4]
      = (⟨1, some 1⟩,
          [HandledBranch.streamData, HandledBranch.streamData,
            HandledBranch.streamData, HandledBranch.streamData]) := by
  rfl

/-- C3 (amended): the raw-WebSocket example keeps no `lastSeq` for a
stream and performs no contiguity check: every `StreamData` message (not
shadowed by a `Response` tag) is processed by the normal data branch,
whatever its `seq`, leaving the client state unchanged and failing no
stream. -/
theorem streamData_any_seq_accepted (st : ClientState) (m : DecodedMsg)
    (d : StreamDataMsg) (hr : m.Response = none) (hd : m.StreamData = some d) :
    handleMessage st m = (st, HandledBranch.streamData) := by
  simp [handleMessage, hr, hd]

/-- Witness for C3 (amended) at a concrete out-of-order seq: the message
with seq 99 on stream 2 is accepted with no state change. -/
theorem streamData_any_seq_accepted_witness :
    handleMessage ⟨5, some 2⟩ (streamDataMsg 2 99) = (⟨5, some 2⟩, HandledBranch.streamData) :=
  streamData_any_seq_accepted ⟨5, some 2⟩ (streamDataMsg 2 99) ⟨2, 99, []⟩ rfl rfl

/-- C6 counterexample: with stream 5 active, receiving `StreamEnd` for the
different stream id 7 clears `activeStreamId` — the clearing is not
restricted to a `StreamEnd` carrying the active stream id, refuting the
claim that the active-stream state is cleared only on a `StreamEnd` for
that stream. -/
theorem streamEnd_other_id_clears :
    (handleMessage ⟨3, some 5⟩ (streamEndMsg 7)).1.activeStreamId = none ∧
    (7 : Nat) ≠ 5 := by
  constructor
  · rfl
  · decide

/-- C6 (amended): sending a `StopStream` request never transitions the
stream or clears the active-stream state (it only increments the request
counter and emits the request); the active-stream state is cleared only
by the `StreamEnd` branch of the inbound handler — though that branch
clears it for any `StreamEnd`, without comparing the message id with the
active stream id; and the client tracks at most one active stream id at a
time (the state is a single optional id). -/
theorem stopStream_not_ending (st : ClientState) (ws : ReadyState) (m : DecodedMsg) :
    ((sendStopStream st ws).1.activeStreamId = st.activeStreamId) ∧
    ((handleMessage st m).1.activeStreamId = none →
      st.activeStreamId = none ∨ (handleMessage st m).2 = HandledBranch.streamEnd) ∧
    (∀ e, m.Response = none → m.StreamData = none → m.StreamEnd = some e →
      (handleMessage st m).1.activeStreamId = none) := by
  refine ⟨?_, ?_, ?_⟩
  · match hst : st.activeStreamId with
    | none => simp [sendStopStream, hst]
    | some sid =>
      by_cases hw : ws = ReadyState.OPEN <;> simp [sendStopStream, hst, hw]
  · intro hcl
    match hr : m.Response with
    | some r =>
      match hs : r.stream with
      | some s =>
        exfalso
        simp [handleMessage, hr, hs] at hcl
      | none =>
        left
        simpa [handleMessage, hr, hs] using hcl
    | none =>
      match hd : m.StreamData with
      | some d =>
        left
        simpa [handleMessage, hr, hd] using hcl
      | none =>
        match he : m.StreamEnd with
        | some e =>
          right
          simp [handleMessage, hr, hd, he]
        | none =>
          match hE : m.Error with
          | some e =>
            left
            simpa [handleMessage, hr, hd, he, hE] using hcl
          | none =>
            left
            simpa [handleMessage, hr, hd, he, hE] using hcl
  · intro e h1 h2 h3
    simp [handleMessage, h1, h2, h3]

/-- Witness for C6 (amended): a concrete `StreamEnd` for the active
stream 4 clears the active-stream state, and a concrete `StopStream` send
leaves it untouched. -/
theorem stopStream_not_ending_witness :
    (sendStopStream ⟨0, some 4⟩ ReadyState.OPEN).1.activeStreamId = some 4 ∧
    (handleMessage ⟨0, some 4⟩ (streamEndMsg 4)).1.activeStreamId = none :=
  ⟨(stopStream_not_ending ⟨0, some 4⟩ ReadyState.OPEN (streamEndMsg 4)).1,
    (stopStream_not_ending ⟨0, some 4⟩ ReadyState.OPEN (streamEndMsg 4)).2.2
      ⟨4, none, none⟩ rfl rfl rfl⟩

/-- Every delay recorded by the retry loop follows the backoff formula:
the `i`-th delay slept after starting with counter value `attempt` is the
backoff of the incremented counter `attempt + i + 1`. -/
theorem retryLoop_delay (connectOk : Nat → Bool) :
    ∀ remaining attempt i d,
      (retryLoop connectOk attempt remaining).delays[i]? = some d →
      d = backoffDelay (attempt + i + 1) := by
  intro remaining
  induction remaining with
  | zero =>
    intro attempt i d h
    simp [retryLoop] at h
  | succ rem ih =>
    intro attempt i d h
    by_cases hc : connectOk attempt
    · simp [retryLoop, hc] at h
    · simp only [retryLoop, hc, Bool.false_eq_true, if_false] at h
      match i with
      | 0 =>
        simp only [List.getElem?_cons_zero, Option.some.injEq] at h
        rw [← h]
      | j + 1 =>
        simp only [List.getElem?_cons_succ] at h
        rw [ih (attempt + 1) j d h]
        congr 1
        omega

/-- When every connect attempt fails, the loop makes exactly the
remaining number of attempts, sleeps one delay per failure, and does not
connect. -/
theorem retryLoop_all_fail (connectOk : Nat → Bool) (hfail : ∀ a, connectOk a = false) :
    ∀ remaining attempt,
      (retryLoop connectOk attempt remaining).connected = false ∧
      (retryLoop connectOk attempt remaining).attemptsMade = remaining ∧
      (retryLoop connectOk attempt remaining).delays.length = remaining := by
  intro remaining
  induction remaining with
  | zero =>
    intro attempt
    exact ⟨rfl, rfl, rfl⟩
  | succ rem ih =>
    intro attempt
    have h := ih (attempt + 1)
    simp only [retryLoop, hfail attempt, Bool.false_eq_true, if_false]
    exact ⟨h.1, by simp [h.2.1], by simp [h.2.2]⟩

/-- C4: before the n-th retry (n counted from 1) the loop sleeps exactly
`min(1000 * 2^n, 30000)` milliseconds — the recorded delay at index `i`
(preceding retry `i + 1`) equals `min(1000 * 2^(i+1), 30000)` — and when
every connect attempt fails, the loop stops after `maxRetries` attempts
with no client, surfacing the terminal `Max retries exceeded` failure. -/
theorem connectWithRetry_spec (maxRetries : Nat) (connectOk : Nat → Bool) :
    (∀ i d, (connectWithRetry maxRetries connectOk).delays[i]? = some d →
      d = min (1000 * 2 ^ (i + 1)) 30000) ∧
    ((∀ a, connectOk a = false) →
      (connectWithRetry maxRetries connectOk).connected = false ∧
      (connectWithRetry maxRetries connectOk).attemptsMade = maxRetries ∧
      (connectWithRetry maxRetries connectOk).delays.length = maxRetries) := by
  constructor
  · intro i d h
    have := retryLoop_delay connectOk maxRetries 0 i d h
    simpa [backoffDelay] using this
  · intro hfail
    exact retryLoop_all_fail connectOk hfail maxRetries 0

/-- Witness for C4: three always-failing attempts sleep 2000, 4000 and
8000 ms and end exhausted after exactly 3 attempts with no client. -/
theorem connectWithRetry_spec_witness :
    ((connectWithRetry 3 (fun _ => false)).connected = false ∧
      (connectWithRetry 3 (fun _ => false)).attemptsMade = 3 ∧
      (connectWithRetry 3 (fun _ => false)).delays.length = 3) ∧
    (2000 : Nat) = min (1000 * 2 ^ (0 + 1)) 30000 :=
  ⟨(connectWithRetry_spec 3 (fun _ => false)).2 (fun _ => rfl),
    (connectWithRetry_spec 3 (fun _ => false)).1 0 2000 (by decide)⟩

theorem toBytesLE_length (k : Nat) : forall n : Nat, (toBytesLE k n).length = k := by
  induction k with
  | zero => intro n; rfl
  | succ j ih =>
    intro n
    simp [toBytesLE, ih]

theorem fromBytesLE_toBytesLE (k : Nat) :
    forall n : Nat, n < 2 ^ (8 * k) -> fromBytesLE (toBytesLE k n) = n := by
  induction k with
  | zero =>
    intro n h
    have hn : n = 0 := by omega
    subst hn
    rfl
  | succ j ih =>
    intro n h
    have hdiv : n / 256 < 2 ^ (8 * j) := by
      have h2 : n < 2 ^ (8 * j) * 256 := by
        have : 2 ^ (8 * (j + 1)) = 2 ^ (8 * j) * 256 := by
          rw [Nat.mul_add, Nat.pow_add]
        omega
      omega
    simp only [toBytesLE, fromBytesLE, ih (n / 256) hdiv]
    omega

theorem readBytesP_exact (bs rest : List Nat) :
    readBytesP bs.length (bs ++ rest) = some (bs, rest) := by
  unfold readBytesP
  rw [if_pos (by simp)]
  rw [List.take_left, List.drop_left]

theorem readBytesP_exact_of (k : Nat) (bs rest : List Nat) (h : bs.length = k) :
    readBytesP k (bs ++ rest) = some (bs, rest) := by
  subst h
  exact readBytesP_exact bs rest

theorem char_toNat_lt (c : Char) : c.toNat < 2 ^ 32 := by
  have h := c.valid
  rcases h with h | h
  · have : c.toNat < 55296 := h
    omega
  · have : c.toNat < 1114112 := h.2
    omega

theorem parseChar_charBytes (c : Char) (rest : List Nat) :
    parseChar (charBytes c ++ rest) = some (c, rest) := by
  unfold parseChar charBytes
  rw [readBytesP_exact_of 4 _ _ (toBytesLE_length 4 c.toNat)]
  simp only [Option.bind_eq_bind, Option.some_bind]
  rw [fromBytesLE_toBytesLE 4 c.toNat (by simpa using char_toNat_lt c)]
  rw [Char.ofNat_toNat]
  rfl

theorem parseMany_encodeChars (cs : List Char) (rest : List Nat) :
    parseMany parseChar cs.length (encodeChars cs ++ rest) = some (cs, rest) := by
  induction cs generalizing rest with
  | nil => rfl
  | cons c cs ih =>
    simp only [encodeChars, List.length_cons, parseMany, List.append_assoc,
      parseChar_charBytes, Option.bind_eq_bind, Option.some_bind, ih]
    rfl

theorem parseMany_encodeList (p : List Nat → Option (Value × List Nat)) (xs : List Value)
    (h : ∀ v ∈ xs, ∀ rest, p (encodeValue v ++ rest) = some (v, rest)) :
    ∀ rest, parseMany p xs.length (encodeList xs ++ rest) = some (xs, rest) := by
  induction xs with
  | nil => intro rest; rfl
  | cons v vs ih =>
    intro rest
    have hv := h v (by simp)
    have hrest := ih (fun u hu => h u (by simp [hu]))
    simp only [encodeList, List.length_cons, parseMany, List.append_assoc, hv,
      Option.bind_eq_bind, Option.some_bind, hrest]
    rfl

theorem parseMany_encodeEntries (p : List Nat → Option (Value × List Nat))
    (es : List (Value × Value))
    (hk : ∀ kv ∈ es, ∀ rest, p (encodeValue kv.1 ++ rest) = some (kv.1, rest))
    (hv : ∀ kv ∈ es, ∀ rest, p (encodeValue kv.2 ++ rest) = some (kv.2, rest)) :
    ∀ rest, parseMany (parsePair p) es.length (encodeEntries es ++ rest) = some (es, rest) := by
  induction es with
  | nil => intro rest; rfl
  | cons kv es ih =>
    intro rest
    obtain ⟨k, v⟩ := kv
    have h1 := hk ⟨k, v⟩ (by simp)
    have h2 := hv ⟨k, v⟩ (by simp)
    have hrest := ih (fun u hu => hk u (by simp [hu])) (fun u hu => hv u (by simp [hu]))
    simp only [encodeEntries, List.length_cons, parseMany, parsePair, List.append_assoc,
      h1, h2, Option.bind_eq_bind, Option.some_bind, Option.pure_def, hrest]

theorem depthValue_pos (v : Value) : 1 ≤ depthValue v := by
  cases v <;> simp [depthValue]

theorem validList_mem (xs : List Value) (h : validList xs = true) :
    ∀ u ∈ xs, validValue u = true := by
  induction xs with
  | nil => intro u hu; simp at hu
  | cons v vs ih =>
    intro u hu
    simp only [validList, Bool.and_eq_true] at h
    rcases List.mem_cons.mp hu with h1 | h1
    · subst h1; exact h.1
    · exact ih h.2 u h1

theorem depthList_mem (xs : List Value) : ∀ u ∈ xs, depthValue u ≤ depthList xs := by
  induction xs with
  | nil => intro u hu; simp at hu
  | cons v vs ih =>
    intro u hu
    rcases List.mem_cons.mp hu with h1 | h1
    · subst h1; simp [depthList]
    · have := ih u h1
      simp only [depthList]
      omega

theorem validEntries_mem (es : List (Value × Value)) (h : validEntries es = true) :
    ∀ kv ∈ es, validValue kv.1 = true ∧ validValue kv.2 = true := by
  induction es with
  | nil => intro kv hkv; simp at hkv
  | cons e es ih =>
    intro kv hkv
    obtain ⟨k, v⟩ := e
    simp only [validEntries, Bool.and_eq_true] at h
    rcases List.mem_cons.mp hkv with h1 | h1
    · subst h1; exact ⟨h.1.1, h.1.2⟩
    · exact ih h.2 kv h1

theorem depthEntries_mem (es : List (Value × Value)) :
    ∀ kv ∈ es, depthValue kv.1 ≤ depthEntries es ∧ depthValue kv.2 ≤ depthEntries es := by
  induction es with
  | nil => intro kv hkv; simp at hkv
  | cons e es ih =>
    intro kv hkv
    obtain ⟨k, v⟩ := e
    rcases List.mem_cons.mp hkv with h1 | h1
    · subst h1
      simp only [depthEntries]
      omega
    · have := ih kv h1
      simp only [depthEntries]
      omega

mutual

theorem depthValue_le (v : Value) : depthValue v ≤ (encodeValue v).length := by
  match v with
  | Value.nil => simp [depthValue, encodeValue]
  | Value.bool b => cases b <;> simp [depthValue, encodeValue]
  | Value.int i =>
    by_cases h : 0 ≤ i <;>
      simp [depthValue, encodeValue, h, toBytesLE_length]
  | Value.str s => simp [depthValue, encodeValue]
  | Value.bin bs => simp [depthValue, encodeValue]
  | Value.arr xs =>
    have := depthList_le xs
    simp only [depthValue, encodeValue, List.length_cons, List.length_append,
      toBytesLE_length]
    omega
  | Value.map es =>
    have := depthEntries_le es
    simp only [depthValue, encodeValue, List.length_cons, List.length_append,
      toBytesLE_length]
    omega

theorem depthList_le (xs : List Value) : depthList xs ≤ (encodeList xs).length := by
  match xs with
  | [] => simp [depthList, encodeList]
  | v :: vs =>
    have h1 := depthValue_le v
    have h2 := depthList_le vs
    simp only [depthList, encodeList, List.length_append]
    omega

theorem depthEntries_le (es : List (Value × Value)) :
    depthEntries es ≤ (encodeEntries es).length := by
  match es with
  | [] => simp [depthEntries, encodeEntries]
  | (k, v) :: es =>
    have h1 := depthValue_le k
    have h2 := depthValue_le v
    have h3 := depthEntries_le es
    simp only [depthEntries, encodeEntries, List.length_append]
    omega

end

theorem parseValue_step_c0 (f : Nat) (tail : List Nat) :
    parseValue (f + 1) (0xc0 :: tail) = some (Value.nil, tail) := rfl

theorem parseValue_step_c2 (f : Nat) (tail : List Nat) :
    parseValue (f + 1) (0xc2 :: tail) = some (Value.bool false, tail) := rfl

theorem parseValue_step_c3 (f : Nat) (tail : List Nat) :
    parseValue (f + 1) (0xc3 :: tail) = some (Value.bool true, tail) := rfl

theorem parseValue_step_cf (f : Nat) (tail : List Nat) :
    parseValue (f + 1) (0xcf :: tail)
      = (readBytesP 8 tail).bind
          (fun p1 => some (Value.int (Int.ofNat (fromBytesLE p1.1)), p1.2)) := rfl

theorem parseValue_step_d3 (f : Nat) (tail : List Nat) :
    parseValue (f + 1) (0xd3 :: tail)
      = (readBytesP 8 tail).bind
          (fun p1 => some (Value.int (-(Int.ofNat (fromBytesLE p1.1))), p1.2)) := rfl

theorem parseValue_step_db (f : Nat) (tail : List Nat) :
    parseValue (f + 1) (0xdb :: tail)
      = (readBytesP 8 tail).bind
          (fun p1 => (parseMany parseChar (fromBytesLE p1.1) p1.2).bind
            (fun p2 => some (Value.str ⟨p2.1⟩, p2.2))) := rfl

theorem parseValue_step_c6 (f : Nat) (tail : List Nat) :
    parseValue (f + 1) (0xc6 :: tail)
      = (readBytesP 8 tail).bind
          (fun p1 => (readBytesP (fromBytesLE p1.1) p1.2).bind
            (fun p2 => some (Value.bin p2.1, p2.2))) := rfl

theorem parseValue_step_dd (f : Nat) (tail : List Nat) :
    parseValue (f + 1) (0xdd :: tail)
      = (readBytesP 8 tail).bind
          (fun p1 => (parseMany (parseValue f) (fromBytesLE p1.1) p1.2).bind
            (fun p2 => some (Value.arr p2.1, p2.2))) := rfl

theorem parseValue_step_df (f : Nat) (tail : List Nat) :
    parseValue (f + 1) (0xdf :: tail)
      = (readBytesP 8 tail).bind
          (fun p1 => (parseMany (parsePair (parseValue f)) (fromBytesLE p1.1) p1.2).bind
            (fun p2 => some (Value.map p2.1, p2.2))) := rfl

theorem parseValue_encodeValue :
    ∀ d : Nat, ∀ v, validValue v = true → depthValue v ≤ d →
      ∀ fuel, depthValue v ≤ fuel → ∀ rest,
        parseValue fuel (encodeValue v ++ rest) = some (v, rest) := by
  intro d
  induction d with
  | zero =>
    intro v _ hd
    have := depthValue_pos v
    omega
  | succ d ih =>
    intro v hval hd fuel hfuel rest
    have hpos := depthValue_pos v
    obtain ⟨f, rfl⟩ : ∃ f, fuel = f + 1 := ⟨fuel - 1, by omega⟩
    match v with
    | Value.nil =>
      rw [show encodeValue Value.nil = [0xc0] from rfl, List.singleton_append,
        parseValue_step_c0]
    | Value.bool false =>
      rw [show encodeValue (Value.bool false) = [0xc2] from rfl, List.singleton_append,
        parseValue_step_c2]
    | Value.bool true =>
      rw [show encodeValue (Value.bool true) = [0xc3] from rfl, List.singleton_append,
        parseValue_step_c3]
    | Value.int i =>
      have hrange : -(2 : Int) ^ 63 ≤ i ∧ i < 2 ^ 64 := by
        simpa [validValue] using hval
      by_cases h : 0 ≤ i
      · have henc : encodeValue (Value.int i) = 0xcf :: toBytesLE 8 i.toNat := by
          simp [encodeValue, h]
        rw [henc, List.cons_append, parseValue_step_cf,
          readBytesP_exact_of 8 _ _ (toBytesLE_length 8 i.toNat)]
        simp only [Option.some_bind]
        rw [fromBytesLE_toBytesLE 8 i.toNat (by omega),
          show Int.ofNat i.toNat = i from Int.toNat_of_nonneg h]
      · have henc : encodeValue (Value.int i) = 0xd3 :: toBytesLE 8 (-i).toNat := by
          simp [encodeValue, h]
        rw [henc, List.cons_append, parseValue_step_d3,
          readBytesP_exact_of 8 _ _ (toBytesLE_length 8 (-i).toNat)]
        simp only [Option.some_bind]
        rw [fromBytesLE_toBytesLE 8 (-i).toNat (by omega),
          show Int.ofNat (-i).toNat = -i from Int.toNat_of_nonneg (by omega), neg_neg]
    | Value.str s =>
      obtain ⟨cs⟩ := s
      have hlen : cs.length < 2 ^ 64 := by
        simpa [validValue, String.length] using hval
      rw [show encodeValue (Value.str ⟨cs⟩)
            = 0xdb :: (toBytesLE 8 cs.length ++ encodeChars cs) from rfl,
        List.cons_append, List.append_assoc, parseValue_step_db,
        readBytesP_exact_of 8 _ _ (toBytesLE_length 8 cs.length)]
      simp only [Option.some_bind]
      rw [fromBytesLE_toBytesLE 8 cs.length hlen, parseMany_encodeChars cs rest]
      simp only [Option.some_bind]
    | Value.bin bs =>
      have hsplit : bs.length < 2 ^ 64 ∧ validBytes bs = true := by
        simpa [validValue] using hval
      rw [show encodeValue (Value.bin bs) = 0xc6 :: (toBytesLE 8 bs.length ++ bs) from rfl,
        List.cons_append, List.append_assoc, parseValue_step_c6,
        readBytesP_exact_of 8 _ _ (toBytesLE_length 8 bs.length)]
      simp only [Option.some_bind]
      rw [fromBytesLE_toBytesLE 8 bs.length hsplit.1, readBytesP_exact bs rest]
      simp only [Option.some_bind]
    | Value.arr xs =>
      have hsplit : xs.length < 2 ^ 64 ∧ validList xs = true := by
        simpa [validValue] using hval
      have hdepth : depthList xs ≤ d := by
        have hdv : depthValue (Value.arr xs) = depthList xs + 1 := rfl
        omega
      have hfuel2 : depthList xs ≤ f := by
        have hdv : depthValue (Value.arr xs) = depthList xs + 1 := rfl
        omega
      have hitems : ∀ u ∈ xs, ∀ r2, parseValue f (encodeValue u ++ r2) = some (u, r2) := by
        intro u hu r2
        exact ih u (validList_mem xs hsplit.2 u hu)
          (le_trans (depthList_mem xs u hu) hdepth) f
          (le_trans (depthList_mem xs u hu) hfuel2) r2
      rw [show encodeValue (Value.arr xs)
            = 0xdd :: (toBytesLE 8 xs.length ++ encodeList xs) from rfl,
        List.cons_append, List.append_assoc, parseValue_step_dd,
        readBytesP_exact_of 8 _ _ (toBytesLE_length 8 xs.length)]
      simp only [Option.some_bind]
      rw [fromBytesLE_toBytesLE 8 xs.length hsplit.1,
        parseMany_encodeList (parseValue f) xs hitems rest]
      simp only [Option.some_bind]
    | Value.map es =>
      have hsplit : es.length < 2 ^ 64 ∧ validEntries es = true := by
        simpa [validValue] using hval
      have hdepth : depthEntries es ≤ d := by
        have hdv : depthValue (Value.map es) = depthEntries es + 1 := rfl
        omega
      have hfuel2 : depthEntries es ≤ f := by
        have hdv : depthValue (Value.map es) = depthEntries es + 1 := rfl
        omega
      have hks : ∀ kv ∈ es, ∀ r2, parseValue f (encodeValue kv.1 ++ r2) = some (kv.1, r2) := by
        intro kv hkv r2
        exact ih kv.1 ((validEntries_mem es hsplit.2 kv hkv).1)
          (le_trans ((depthEntries_mem es kv hkv).1) hdepth) f
          (le_trans ((depthEntries_mem es kv hkv).1) hfuel2) r2
      have hvs : ∀ kv ∈ es, ∀ r2, parseValue f (encodeValue kv.2 ++ r2) = some (kv.2, r2) := by
        intro kv hkv r2
        exact ih kv.2 ((validEntries_mem es hsplit.2 kv hkv).2)
          (le_trans ((depthEntries_mem es kv hkv).2) hdepth) f
          (le_trans ((depthEntries_mem es kv hkv).2) hfuel2) r2
      rw [show encodeValue (Value.map es)
            = 0xdf :: (toBytesLE 8 es.length ++ encodeEntries es) from rfl,
        List.cons_append, List.append_assoc, parseValue_step_df,
        readBytesP_exact_of 8 _ _ (toBytesLE_length 8 es.length)]
      simp only [Option.some_bind]
      rw [fromBytesLE_toBytesLE 8 es.length hsplit.1,
        parseMany_encodeEntries (parseValue f) es hks hvs rest]
      simp only [Option.some_bind]

theorem decode_encode (v : Value) (h : validValue v = true) : decode (encode v) = some v := by
  unfold decode encode
  have hd := depthValue_le v
  have h1 : parseValue ((encodeValue v).length + 1) (encodeValue v ++ []) = some (v, []) :=
    parseValue_encodeValue ((encodeValue v).length + 1) v h (by omega)
      ((encodeValue v).length + 1) (by omega) []
  rw [List.append_nil] at h1
  rw [h1]

/-- C8: the codec round-trip law — for every representable well-formed
value (maps, sequences, integers including unsigned 64-bit values at the
boundaries 0 and 2^64 - 1, byte strings, strings, booleans, null),
`decode (encode v) = some v`; `encode` and `decode` are functions of the
value and of the bytes alone (deterministic), and wide integers are
carried losslessly rather than narrowed to a floating-point-safe range. -/
theorem decode_encode_roundtrip (v : Value) (h : validValue v = true) :
    decode (encode v) = some v :=
  decode_encode v h

/-- Witness for C8 at a concrete value containing the unsigned 64-bit
boundary integers 0 and 2^64 - 1, a map, a sequence, a byte string,
strings, booleans, null, and the signed low end -2^63. -/
theorem decode_encode_roundtrip_witness :
    validValue codecWitnessValue = true ∧
    decode (encode codecWitnessValue) = some codecWitnessValue :=
  ⟨by rfl, decode_encode_roundtrip codecWitnessValue (by rfl)⟩

end Titan




